import Mathlib

/-!
Shallow embedding of the Conway Game of Life engine from the repository
(src/src/lib.rs and src/src/main.rs).

The grid is a list of rows of booleans, as in the Rust `Vec<Vec<bool>>`.
Rust index expressions `self.grid[x][y]` panic when out of bounds; the
embedding models every such access with `Option`: `none` is the panic.
Times and pixel coordinates (Rust `f32`/`f64`) are modelled as rationals.
-/

namespace Conway

/-- The cell matrix: `grid[x][y]`, `true` for alive, `false` for dead. -/
abbrev Grid := List (List Bool)

/-- Rust read `self.grid[x][y]`; `none` models the out-of-bounds panic. -/
def getCell (g : Grid) (x y : ℕ) : Option Bool :=
  match g[x]? with
  | none => none
  | some row => row[y]?

/-- Rust write `grid[x][y] = b`; `none` models the out-of-bounds panic. -/
def setCell (g : Grid) (x y : ℕ) (b : Bool) : Option Grid :=
  match g[x]? with
  | none => none
  | some row =>
    if y < row.length then some (g.set x (row.set y b)) else none

/-- Total read used only to state specifications (never models the code). -/
def getD2 (g : Grid) (x y : ℕ) : Bool :=
  ((g[x]?.getD []))[y]?.getD false

/-- The dimension invariant: the matrix is exactly `(n+2) × (n+2)`. -/
def dims (n : ℕ) (g : Grid) : Prop :=
  g.length = n + 2 ∧ ∀ row ∈ g, row.length = n + 2

instance (n : ℕ) (g : Grid) : Decidable (dims n g) := by
  unfold dims; infer_instance

/--
`GameOfLifeApp::count_alive_neighbors` (src/src/lib.rs lines 91-111):
iterate `i` and `j` over `0..3`, skip `(1,1)`, form `ni = x + i - 1` and
`nj = y + j - 1` as signed integers, and count `grid[ni][nj]` only when
both lie in `[0, n+2)`.
-/
def count_alive_neighbors (n : ℕ) (g : Grid) (x y : ℕ) : Option ℕ :=
  (List.range 3).foldlM (fun c (i : ℕ) =>
    (List.range 3).foldlM (fun c2 (j : ℕ) =>
      if i = 1 ∧ j = 1 then some c2
      else
        let ni : ℤ := (x : ℤ) + (i : ℤ) - 1
        let nj : ℤ := (y : ℤ) + (j : ℤ) - 1
        if 0 ≤ ni ∧ ni < (n : ℤ) + 2 ∧ 0 ≤ nj ∧ nj < (n : ℤ) + 2 then
          match getCell g ni.toNat nj.toNat with
          | none => none
          | some b => some (if b then c2 + 1 else c2)
        else some c2) c) 0

/--
`GameOfLifeApp::update_game_state` (src/src/lib.rs lines 71-89): clone the
grid, then for every `x` and `y` in `0..n+2` write the rule outcome for
cell `(x,y)` — computed from the *original* grid — into the clone, and
replace the grid with the clone.
-/
def update_game_state (n : ℕ) (g : Grid) : Option Grid :=
  (List.range (n + 2)).foldlM (fun acc x =>
    (List.range (n + 2)).foldlM (fun acc2 y =>
      match count_alive_neighbors n g x y, getCell g x y with
      | some cnt, some cur =>
        setCell acc2 x y (if cur then cnt == 2 || cnt == 3 else cnt == 3)
      | _, _ => none) acc) g

/-- `GameOfLifeApp::clear_grid` (src/src/lib.rs lines 113-115):
`vec![vec![false; n+2]; n+2]`. -/
def clear_grid (n : ℕ) : Grid :=
  List.replicate (n + 2) (List.replicate (n + 2) false)

/-- The toggle `self.grid[x][y] = !self.grid[x][y]` (src/src/lib.rs line 45). -/
def toggle (g : Grid) (x y : ℕ) : Option Grid :=
  match getCell g x y with
  | none => none
  | some b => setCell g x y (!b)

/--
The pointer-to-cell mapping of `draw_grid` (src/src/lib.rs lines 41-43):
`x = ((mouse.x - rect.left()) / cell_size).floor() as usize` (the Rust
float-to-usize cast saturates negative values to `0`, hence `Int.toNat`),
likewise for `y`; the toggle is guarded by `x < n && y < n`.
-/
def map_click (n : ℕ) (px py ox oy cs : ℚ) : Option (ℕ × ℕ) :=
  let x : ℕ := (Int.floor ((px - ox) / cs)).toNat
  let y : ℕ := (Int.floor ((py - oy) / cs)).toNat
  if x < n ∧ y < n then some (x, y) else none

/-- The click branch of `draw_grid` (src/src/lib.rs lines 38-48): map the
pointer and, when the guard passes, flip the clicked cell. -/
def handle_click (n : ℕ) (g : Grid) (px py ox oy cs : ℚ) : Option Grid :=
  match map_click n px py ox oy cs with
  | none => some g
  | some (x, y) => toggle g x y

/-- The engine state of `GameOfLifeApp` (src/src/lib.rs lines 11-17),
with `f64`/`f32` times modelled as rationals. -/
structure GameOfLifeApp where
  grid_length : ℕ
  grid : Grid
  is_playing : Bool
  last_update : ℚ
  update_frequency : ℚ

/-- `GameOfLifeApp::new` (src/src/lib.rs lines 20-30): a 32-cell playable
grid stored as a `34 × 34` all-dead matrix, paused, with the construction
time `t0` as the last-update stamp and a half-second frequency. -/
def GameOfLifeApp.new (t0 : ℚ) : GameOfLifeApp :=
  { grid_length := 32
    grid := clear_grid 32
    is_playing := false
    last_update := t0
    update_frequency := 1 / 2 }

/-- The Clear button branch of `GameOfLifeApp::update` (src/src/lib.rs
lines 132-135): clear the grid, then stop playing. -/
def on_clear (app : GameOfLifeApp) : GameOfLifeApp :=
  { app with grid := clear_grid app.grid_length, is_playing := false }

/-- The timer branch of `GameOfLifeApp::update` (src/src/lib.rs lines
143-148): if playing and `now - last_update >= update_frequency`, step the
grid and stamp `last_update = now`; otherwise leave everything unchanged. -/
def tick (app : GameOfLifeApp) (now : ℚ) : Option GameOfLifeApp :=
  if app.is_playing = true ∧ app.update_frequency ≤ now - app.last_update then
    match update_game_state app.grid_length app.grid with
    | none => none
    | some g2 => some { app with grid := g2, last_update := now }
  else some app

/-- A sequence of timer evaluations at the given instants. -/
def ticks (app : GameOfLifeApp) (nows : List ℚ) : Option GameOfLifeApp :=
  nows.foldlM tick app

/--
`GameOfLifeApp::count_alive_neighbors` of the process-only variant
(src/src/main.rs lines 81-101): identical loop with the bound hardcoded
to `18`.
-/
def main_count_alive_neighbors (g : Grid) (x y : ℕ) : Option ℕ :=
  (List.range 3).foldlM (fun c (i : ℕ) =>
    (List.range 3).foldlM (fun c2 (j : ℕ) =>
      if i = 1 ∧ j = 1 then some c2
      else
        let ni : ℤ := (x : ℤ) + (i : ℤ) - 1
        let nj : ℤ := (y : ℤ) + (j : ℤ) - 1
        if 0 ≤ ni ∧ ni < 18 ∧ 0 ≤ nj ∧ nj < 18 then
          match getCell g ni.toNat nj.toNat with
          | none => none
          | some b => some (if b then c2 + 1 else c2)
        else some c2) c) 0

/-- `GameOfLifeApp::update_game_state` of the process-only variant
(src/src/main.rs lines 61-79): identical loop over `0..18`. -/
def main_update_game_state (g : Grid) : Option Grid :=
  (List.range 18).foldlM (fun acc x =>
    (List.range 18).foldlM (fun acc2 y =>
      match main_count_alive_neighbors g x y, getCell g x y with
      | some cnt, some cur =>
        setCell acc2 x y (if cur then cnt == 2 || cnt == 3 else cnt == 3)
      | _, _ => none) acc) g

/-! ### Specification layer: pure closed forms used to state the claims -/

/-- Contribution of one neighbor position `(ni, nj)` to the count: `1`
exactly when it lies in `[0, n+2)` on both axes and holds an alive cell. -/
def contrib (n : ℕ) (g : Grid) (ni nj : ℤ) : ℕ :=
  if 0 ≤ ni ∧ ni < (n : ℤ) + 2 ∧ 0 ≤ nj ∧ nj < (n : ℤ) + 2 ∧
      getD2 g ni.toNat nj.toNat = true then 1 else 0

/-- Sum of the contributions of the 8 Moore-neighborhood offsets. -/
def mooreCount (n : ℕ) (g : Grid) (x y : ℕ) : ℕ :=
  contrib n g ((x : ℤ) - 1) ((y : ℤ) - 1) +
  contrib n g ((x : ℤ) - 1) (y : ℤ) +
  contrib n g ((x : ℤ) - 1) ((y : ℤ) + 1) +
  contrib n g (x : ℤ) ((y : ℤ) - 1) +
  contrib n g (x : ℤ) ((y : ℤ) + 1) +
  contrib n g ((x : ℤ) + 1) ((y : ℤ) - 1) +
  contrib n g ((x : ℤ) + 1) (y : ℤ) +
  contrib n g ((x : ℤ) + 1) ((y : ℤ) + 1)

/-- The Conway rule for one cell, as a function of the input grid only. -/
def nextCell (n : ℕ) (g : Grid) (x y : ℕ) : Bool :=
  if getD2 g x y then mooreCount n g x y == 2 || mooreCount n g x y == 3
  else mooreCount n g x y == 3

/-- The whole next generation, as a pure function of the input grid. -/
def stepPure (n : ℕ) (g : Grid) : Grid :=
  (List.range (n + 2)).map fun x =>
    (List.range (n + 2)).map fun y => nextCell n g x y

/-- The successful outcome of `setCell`. -/
def writeCell (g : Grid) (x y : ℕ) (b : Bool) : Grid :=
  g.set x ((g[x]?.getD []).set y b)

/-! ### Helper lemmas -/

theorem foldlM_inv {α β : Type} (P : β → Prop) (f : β → α → Option β)
    (h : β → α → β) :
    ∀ (l : List α) (b : β), P b →
      (∀ b2 a, P b2 → a ∈ l → f b2 a = some (h b2 a) ∧ P (h b2 a)) →
      l.foldlM f b = some (l.foldl h b) ∧ P (l.foldl h b) := by
  intro l
  induction l with
  | nil => intro b hb _; exact ⟨rfl, hb⟩
  | cons a l ih =>
    intro b hb H
    have ha := H b a hb (List.mem_cons_self a l)
    have := ih (h b a) ha.2 (fun b2 a2 hb2 hm => H b2 a2 hb2 (List.mem_cons_of_mem a hm))
    simp only [List.foldlM_cons, ha.1, List.foldl_cons]
    simpa using this

theorem getCell_some {n : ℕ} {g : Grid} (hd : dims n g) {x y : ℕ}
    (hx : x < n + 2) (hy : y < n + 2) :
    getCell g x y = some (getD2 g x y) := by
  obtain ⟨hlen, hrow⟩ := hd
  have hx2 : x < g.length := by omega
  obtain ⟨row, hrowx⟩ : ∃ row, g[x]? = some row :=
    ⟨g[x], List.getElem?_eq_some.mpr ⟨hx2, rfl⟩⟩
  have hmem : row ∈ g := by
    exact (List.mem_iff_getElem?).mpr ⟨x, hrowx⟩
  have hy2 : y < row.length := by rw [hrow row hmem]; omega
  obtain ⟨b, hby⟩ : ∃ b, row[y]? = some b :=
    ⟨row[y], List.getElem?_eq_some.mpr ⟨hy2, rfl⟩⟩
  simp [getCell, getD2, hrowx, hby]

theorem setCell_some {n : ℕ} {g : Grid} (hd : dims n g) {x y : ℕ}
    (hx : x < n + 2) (hy : y < n + 2) (b : Bool) :
    setCell g x y b = some (writeCell g x y b) ∧ dims n (writeCell g x y b) := by
  obtain ⟨hlen, hrow⟩ := hd
  have hx2 : x < g.length := by omega
  obtain ⟨row, hrowx⟩ : ∃ row, g[x]? = some row :=
    ⟨g[x], List.getElem?_eq_some.mpr ⟨hx2, rfl⟩⟩
  have hmem : row ∈ g := (List.mem_iff_getElem?).mpr ⟨x, hrowx⟩
  have hy2 : y < row.length := by rw [hrow row hmem]; omega
  refine ⟨by simp [setCell, writeCell, hrowx, hy2], ?_, ?_⟩
  · simp [writeCell, hlen]
  · intro r hr
    rcases List.mem_or_eq_of_mem_set hr with hr2 | hr2
    · exact hrow r hr2
    · subst hr2
      simp [hrowx, List.length_set]
      exact hrow row hmem

theorem contrib_step {n : ℕ} (g : Grid) (c : ℕ) (ni nj : ℤ) :
    (if 0 ≤ ni ∧ ni < (n : ℤ) + 2 ∧ 0 ≤ nj ∧ nj < (n : ℤ) + 2 then
      (if getD2 g ni.toNat nj.toNat = true then c + 1 else c) else c)
    = c + contrib n g ni nj := by
  unfold contrib
  split_ifs <;> first | omega | tauto

/-- One pure step of the neighbor-count loops. -/
def countStep (n : ℕ) (g : Grid) (x y i j c : ℕ) : ℕ :=
  if i = 1 ∧ j = 1 then c
  else
    if 0 ≤ (x : ℤ) + (i : ℤ) - 1 ∧ (x : ℤ) + (i : ℤ) - 1 < (n : ℤ) + 2 ∧
        0 ≤ (y : ℤ) + (j : ℤ) - 1 ∧ (y : ℤ) + (j : ℤ) - 1 < (n : ℤ) + 2 then
      (if getD2 g ((x : ℤ) + (i : ℤ) - 1).toNat ((y : ℤ) + (j : ℤ) - 1).toNat = true
        then c + 1 else c)
    else c

theorem count_closed {n : ℕ} {g : Grid} (hd : dims n g) (x y : ℕ) :
    count_alive_neighbors n g x y = some (mooreCount n g x y) := by
  have hmono : count_alive_neighbors n g x y =
      some ((List.range 3).foldl (fun c i =>
        (List.range 3).foldl (fun c2 j => countStep n g x y i j c2) c) 0) := by
    unfold count_alive_neighbors
    refine (foldlM_inv (fun _ => True) _ _ (List.range 3) 0 trivial ?_).1
    intro c i _ _
    refine ⟨?_, trivial⟩
    refine (foldlM_inv (fun _ => True) _ _ (List.range 3) c trivial ?_).1
    intro c2 j _ _
    refine ⟨?_, trivial⟩
    show (if i = 1 ∧ j = 1 then some c2
      else
        if 0 ≤ (x : ℤ) + (i : ℤ) - 1 ∧ (x : ℤ) + (i : ℤ) - 1 < (n : ℤ) + 2 ∧
            0 ≤ (y : ℤ) + (j : ℤ) - 1 ∧ (y : ℤ) + (j : ℤ) - 1 < (n : ℤ) + 2 then
          match getCell g ((x : ℤ) + (i : ℤ) - 1).toNat ((y : ℤ) + (j : ℤ) - 1).toNat with
          | none => none
          | some b => some (if b then c2 + 1 else c2)
        else some c2) = some (countStep n g x y i j c2)
    unfold countStep
    by_cases hij : i = 1 ∧ j = 1
    · rw [if_pos hij, if_pos hij]
    · rw [if_neg hij, if_neg hij]
      by_cases hb : 0 ≤ (x : ℤ) + (i : ℤ) - 1 ∧ (x : ℤ) + (i : ℤ) - 1 < (n : ℤ) + 2 ∧
          0 ≤ (y : ℤ) + (j : ℤ) - 1 ∧ (y : ℤ) + (j : ℤ) - 1 < (n : ℤ) + 2
      · have hni : ((x : ℤ) + (i : ℤ) - 1).toNat < n + 2 := by omega
        have hnj : ((y : ℤ) + (j : ℤ) - 1).toNat < n + 2 := by omega
        rw [if_pos hb, if_pos hb, getCell_some hd hni hnj]
      · rw [if_neg hb, if_neg hb]
  rw [hmono]
  congr 1
  have hgen : ∀ (i j c : ℕ), ¬(i = 1 ∧ j = 1) →
      countStep n g x y i j c = c + contrib n g ((x : ℤ) + (i : ℤ) - 1) ((y : ℤ) + (j : ℤ) - 1) := by
    intro i j c hij
    unfold countStep
    rw [if_neg hij]
    exact contrib_step g c _ _
  have hco : ∀ (a b a2 b2 : ℤ), a = a2 → b = b2 →
      contrib n g a b = contrib n g a2 b2 := by
    intro a b a2 b2 h1 h2; rw [h1, h2]
  have h00 : ∀ c, countStep n g x y 0 0 c = c + contrib n g ((x : ℤ) - 1) ((y : ℤ) - 1) := by
    intro c
    rw [hgen 0 0 c (by omega)]
    exact congrArg (fun t => c + t) (hco _ _ _ _ (by push_cast; ring) (by push_cast; ring))
  have h01 : ∀ c, countStep n g x y 0 1 c = c + contrib n g ((x : ℤ) - 1) (y : ℤ) := by
    intro c
    rw [hgen 0 1 c (by omega)]
    exact congrArg (fun t => c + t) (hco _ _ _ _ (by push_cast; ring) (by push_cast; ring))
  have h02 : ∀ c, countStep n g x y 0 2 c = c + contrib n g ((x : ℤ) - 1) ((y : ℤ) + 1) := by
    intro c
    rw [hgen 0 2 c (by omega)]
    exact congrArg (fun t => c + t) (hco _ _ _ _ (by push_cast; ring) (by push_cast; ring))
  have h10 : ∀ c, countStep n g x y 1 0 c = c + contrib n g (x : ℤ) ((y : ℤ) - 1) := by
    intro c
    rw [hgen 1 0 c (by omega)]
    exact congrArg (fun t => c + t) (hco _ _ _ _ (by push_cast; ring) (by push_cast; ring))
  have h11 : ∀ c, countStep n g x y 1 1 c = c := by
    intro c
    unfold countStep
    rw [if_pos ⟨rfl, rfl⟩]
  have h12 : ∀ c, countStep n g x y 1 2 c = c + contrib n g (x : ℤ) ((y : ℤ) + 1) := by
    intro c
    rw [hgen 1 2 c (by omega)]
    exact congrArg (fun t => c + t) (hco _ _ _ _ (by push_cast; ring) (by push_cast; ring))
  have h20 : ∀ c, countStep n g x y 2 0 c = c + contrib n g ((x : ℤ) + 1) ((y : ℤ) - 1) := by
    intro c
    rw [hgen 2 0 c (by omega)]
    exact congrArg (fun t => c + t) (hco _ _ _ _ (by push_cast; ring) (by push_cast; ring))
  have h21 : ∀ c, countStep n g x y 2 1 c = c + contrib n g ((x : ℤ) + 1) (y : ℤ) := by
    intro c
    rw [hgen 2 1 c (by omega)]
    exact congrArg (fun t => c + t) (hco _ _ _ _ (by push_cast; ring) (by push_cast; ring))
  have h22 : ∀ c, countStep n g x y 2 2 c = c + contrib n g ((x : ℤ) + 1) ((y : ℤ) + 1) := by
    intro c
    rw [hgen 2 2 c (by omega)]
    exact congrArg (fun t => c + t) (hco _ _ _ _ (by push_cast; ring) (by push_cast; ring))
  have hrange : List.range 3 = [0, 1, 2] := rfl
  simp only [hrange, List.foldl_cons, List.foldl_nil, h00, h01, h02, h10, h11, h12, h20, h21, h22]
  unfold mooreCount
  omega

theorem set_self {α : Type} (l : List α) (x : ℕ) (v : α) (h : l[x]? = some v) :
    l.set x v = l := by
  have hx : x < l.length := by
    rcases List.getElem?_eq_some.mp h with ⟨hlt, _⟩
    exact hlt
  apply List.ext_get?
  intro i
  rw [List.get?_eq_getElem?, List.get?_eq_getElem?, List.getElem?_set]
  by_cases hxi : x = i
  · subst hxi
    rw [if_pos rfl, if_pos hx, h]
  · rw [if_neg hxi]

theorem foldl_set_length {α : Type} (f : ℕ → α) :
    ∀ (ks : List ℕ) (l : List α),
      (ks.foldl (fun r k => r.set k (f k)) l).length = l.length := by
  intro ks
  induction ks with
  | nil => intro l; rfl
  | cons a ks ih => intro l; rw [List.foldl_cons, ih, List.length_set]

theorem foldl_range_set_getElem? {α : Type} (f : ℕ → α) :
    ∀ (k : ℕ) (l : List α) (i : ℕ),
      ((List.range k).foldl (fun r j => r.set j (f j)) l)[i]? =
        if i < k ∧ i < l.length then some (f i) else l[i]? := by
  intro k
  induction k with
  | zero => intro l i; simp
  | succ k ih =>
    intro l i
    rw [List.range_succ, List.foldl_append, List.foldl_cons, List.foldl_nil,
      List.getElem?_set, foldl_set_length, ih]
    split_ifs <;>
      first
        | rfl
        | omega
        | simp_all

theorem foldl_range_set_eq_map {α : Type} (f : ℕ → α) (m : ℕ) (l : List α)
    (hl : l.length = m) :
    (List.range m).foldl (fun r j => r.set j (f j)) l = (List.range m).map f := by
  apply List.ext_get?
  intro i
  rw [List.get?_eq_getElem?, List.get?_eq_getElem?, foldl_range_set_getElem?,
    List.getElem?_map]
  by_cases him : i < m
  · rw [if_pos ⟨him, by omega⟩, List.getElem?_range him]
    rfl
  · rw [if_neg (by omega), List.getElem?_eq_none (by omega),
      List.getElem?_eq_none (by rw [List.length_range]; omega)]
    rfl

theorem foldl_writeCell (x : ℕ) (f : ℕ → Bool) :
    ∀ (ys : List ℕ) (g2 : Grid), x < g2.length →
      ys.foldl (fun a y => writeCell a x y (f y)) g2 =
        g2.set x (ys.foldl (fun r y => r.set y (f y)) (g2[x]?.getD [])) := by
  intro ys
  induction ys with
  | nil =>
    intro g2 hx
    rw [List.foldl_nil, List.foldl_nil]
    exact (set_self g2 x _ (by
      rw [List.getElem?_eq_getElem hx]
      simp [List.getElem?_eq_getElem hx])).symm
  | cons y ys ih =>
    intro g2 hx
    rw [List.foldl_cons, List.foldl_cons]
    have hlen : x < (writeCell g2 x y (f y)).length := by
      unfold writeCell
      rw [List.length_set]
      exact hx
    rw [ih (writeCell g2 x y (f y)) hlen]
    unfold writeCell
    rw [List.getElem?_set_self hx]
    rw [List.set_set]
    rfl

theorem update_closed {n : ℕ} {g : Grid} (hd : dims n g) :
    update_game_state n g = some (stepPure n g) := by
  have hrow : ∀ (acc : Grid) (x : ℕ), dims n acc → x < n + 2 →
      (List.range (n + 2)).foldl
          (fun a y => writeCell a x y (nextCell n g x y)) acc
        = acc.set x ((List.range (n + 2)).map fun y => nextCell n g x y) := by
    intro acc x hacc hx
    rw [foldl_writeCell x _ (List.range (n + 2)) acc (by rw [hacc.1]; omega)]
    congr 1
    apply foldl_range_set_eq_map
    have hxl : x < acc.length := by rw [hacc.1]; omega
    have : acc[x]? = some acc[x] := List.getElem?_eq_getElem hxl
    rw [this]
    exact hacc.2 acc[x] (acc.getElem_mem hxl)
  have hsetdims : ∀ (acc : Grid) (x : ℕ), dims n acc → x < n + 2 →
      dims n (acc.set x ((List.range (n + 2)).map fun y => nextCell n g x y)) := by
    intro acc x hacc hx
    constructor
    · rw [List.length_set]; exact hacc.1
    · intro r hr
      rcases List.mem_or_eq_of_mem_set hr with hr2 | hr2
      · exact hacc.2 r hr2
      · rw [hr2, List.length_map, List.length_range]
  have hinnerstep : ∀ (x : ℕ), x < n + 2 → ∀ (acc2 : Grid) (y : ℕ),
      dims n acc2 → y ∈ List.range (n + 2) →
      (match count_alive_neighbors n g x y, getCell g x y with
        | some cnt, some cur =>
          setCell acc2 x y (if cur then cnt == 2 || cnt == 3 else cnt == 3)
        | _, _ => none)
        = some (writeCell acc2 x y (nextCell n g x y)) ∧
        dims n (writeCell acc2 x y (nextCell n g x y)) := by
    intro x hx acc2 y hacc2 hymem
    have hy : y < n + 2 := List.mem_range.mp hymem
    rw [count_closed hd x y, getCell_some hd hx hy]
    have hset := setCell_some hacc2 hx hy
      (if getD2 g x y then mooreCount n g x y == 2 || mooreCount n g x y == 3
        else mooreCount n g x y == 3)
    exact ⟨hset.1, hset.2⟩
  have houterstep : ∀ (acc : Grid) (x : ℕ), dims n acc → x ∈ List.range (n + 2) →
      ((List.range (n + 2)).foldlM (fun acc2 y =>
        match count_alive_neighbors n g x y, getCell g x y with
        | some cnt, some cur =>
          setCell acc2 x y (if cur then cnt == 2 || cnt == 3 else cnt == 3)
        | _, _ => none) acc)
        = some (acc.set x ((List.range (n + 2)).map fun y => nextCell n g x y)) ∧
        dims n (acc.set x ((List.range (n + 2)).map fun y => nextCell n g x y)) := by
    intro acc x hacc hxmem
    have hx : x < n + 2 := List.mem_range.mp hxmem
    have hinner := foldlM_inv (dims n) _
      (fun acc2 y => writeCell acc2 x y (nextCell n g x y))
      (List.range (n + 2)) acc hacc (hinnerstep x hx)
    refine ⟨?_, hsetdims acc x hacc hx⟩
    rw [hinner.1, hrow acc x hacc hx]
  have hmain := foldlM_inv (dims n) _
    (fun acc x => acc.set x ((List.range (n + 2)).map fun y => nextCell n g x y))
    (List.range (n + 2)) g hd houterstep
  unfold update_game_state
  rw [hmain.1]
  congr 1
  rw [foldl_range_set_eq_map _ (n + 2) g hd.1]
  rfl

theorem stepPure_dims (n : ℕ) (g : Grid) : dims n (stepPure n g) := by
  constructor
  · rw [stepPure, List.length_map, List.length_range]
  · intro r hr
    rcases List.mem_map.mp hr with ⟨x, _, rfl⟩
    rw [List.length_map, List.length_range]

theorem stepPure_getCell {n : ℕ} (g : Grid) {x y : ℕ}
    (hx : x < n + 2) (hy : y < n + 2) :
    getCell (stepPure n g) x y = some (nextCell n g x y) := by
  unfold getCell stepPure
  rw [List.getElem?_map, List.getElem?_range hx]
  simp [List.getElem?_map, List.getElem?_range hy]

theorem clear_grid_dims (n : ℕ) : dims n (clear_grid n) := by
  constructor
  · exact List.length_replicate _ _
  · intro r hr
    rw [List.eq_of_mem_replicate hr]
    exact List.length_replicate _ _

theorem clear_grid_getCell {n x y : ℕ} (hx : x < n + 2) (hy : y < n + 2) :
    getCell (clear_grid n) x y = some false := by
  unfold getCell clear_grid
  simp [List.getElem?_replicate, hx, hy]

theorem toggle_closed {n : ℕ} {g : Grid} (hd : dims n g) {x y : ℕ}
    (hx : x < n + 2) (hy : y < n + 2) :
    toggle g x y = some (writeCell g x y (!(getD2 g x y))) ∧
      dims n (writeCell g x y (!(getD2 g x y))) := by
  unfold toggle
  rw [getCell_some hd hx hy]
  exact setCell_some hd hx hy _

theorem getCell_writeCell_same {n : ℕ} {g : Grid} (hd : dims n g) {x y : ℕ}
    (hx : x < n + 2) (hy : y < n + 2) (b : Bool) :
    getCell (writeCell g x y b) x y = some b := by
  have hx2 : x < g.length := by rw [hd.1]; omega
  have hg : g[x]? = some g[x] := List.getElem?_eq_getElem hx2
  have hy2 : y < g[x].length := by
    rw [hd.2 g[x] (g.getElem_mem hx2)]; omega
  unfold getCell writeCell
  rw [hg]
  simp only [Option.getD_some]
  rw [List.getElem?_set_self hx2]
  show (g[x].set y b)[y]? = some b
  rw [List.getElem?_set_self hy2]

theorem getCell_writeCell_other {g : Grid} {x y : ℕ} (b : Bool) (x2 y2 : ℕ)
    (hne : ¬(x2 = x ∧ y2 = y)) :
    getCell (writeCell g x y b) x2 y2 = getCell g x2 y2 := by
  unfold getCell writeCell
  by_cases hxx : x = x2
  · subst hxx
    have hyy : y ≠ y2 := fun h => hne ⟨rfl, h.symm⟩
    by_cases hlen : x < g.length
    · have hg : g[x]? = some g[x] := List.getElem?_eq_getElem hlen
      rw [hg]
      simp only [Option.getD_some]
      rw [List.getElem?_set_self hlen]
      show (g[x].set y b)[y2]? = _
      rw [List.getElem?_set_ne hyy]
    · rw [List.getElem?_set, if_pos rfl, if_neg hlen,
        List.getElem?_eq_none (by omega)]
  · rw [List.getElem?_set_ne hxx]

theorem map_click_some {n : ℕ} {px py ox oy cs : ℚ} {p : ℕ × ℕ}
    (h : map_click n px py ox oy cs = some p) :
    p.1 = (Int.floor ((px - ox) / cs)).toNat ∧
    p.2 = (Int.floor ((py - oy) / cs)).toNat ∧ p.1 < n ∧ p.2 < n := by
  simp only [map_click] at h
  by_cases hc : (Int.floor ((px - ox) / cs)).toNat < n ∧
      (Int.floor ((py - oy) / cs)).toNat < n
  · rw [if_pos hc] at h
    cases h
    exact ⟨rfl, rfl, hc.1, hc.2⟩
  · rw [if_neg hc] at h
    cases h

theorem map_click_none {n : ℕ} {px py ox oy cs : ℚ}
    (h : map_click n px py ox oy cs = none) :
    n ≤ (Int.floor ((px - ox) / cs)).toNat ∨
    n ≤ (Int.floor ((py - oy) / cs)).toNat := by
  simp only [map_click] at h
  by_cases hc : (Int.floor ((px - ox) / cs)).toNat < n ∧
      (Int.floor ((py - oy) / cs)).toNat < n
  · rw [if_pos hc] at h
    cases h
  · omega

theorem writeCell_writeCell {g : Grid} {x y : ℕ} (hx : x < g.length) (a b : Bool) :
    writeCell (writeCell g x y a) x y b = writeCell g x y b := by
  unfold writeCell
  have hg : g[x]? = some g[x] := List.getElem?_eq_getElem hx
  rw [hg]
  simp only [Option.getD_some]
  rw [List.getElem?_set_self hx]
  simp only [Option.getD_some]
  rw [List.set_set, List.set_set]

theorem writeCell_same_value {n : ℕ} {g : Grid} (hd : dims n g) {x y : ℕ}
    (hx : x < n + 2) (hy : y < n + 2) :
    writeCell g x y (getD2 g x y) = g := by
  have hx2 : x < g.length := by rw [hd.1]; omega
  have hg : g[x]? = some g[x] := List.getElem?_eq_getElem hx2
  have hy2 : y < g[x].length := by rw [hd.2 _ (g.getElem_mem hx2)]; omega
  have hrow : g[x][y]? = some g[x][y] := List.getElem?_eq_getElem hy2
  unfold writeCell getD2
  rw [hg]
  simp only [Option.getD_some]
  rw [hrow]
  simp only [Option.getD_some]
  rw [set_self _ _ _ hrow, set_self _ _ _ hg]

/-! ### Claim theorems -/

/--
Claim C1: for every grid satisfying the dimension invariant and every
matrix cell `(x, y)` including border cells, the evolution step succeeds
and produces `stepPure n g` — a pure function of the input generation
only — and the output cell at `(x, y)` is alive iff (the input cell is
alive and its alive-neighbor count is 2 or 3) or (the input cell is dead
and its count is exactly 3).
-/
theorem evolution_rule_correct {n : ℕ} {g : Grid} (hd : dims n g) {x y : ℕ}
    (hx : x < n + 2) (hy : y < n + 2) :
    update_game_state n g = some (stepPure n g) ∧
    ∃ c, count_alive_neighbors n g x y = some c ∧
      (getCell (stepPure n g) x y = some true ↔
        ((getD2 g x y = true ∧ (c = 2 ∨ c = 3)) ∨
         (getD2 g x y = false ∧ c = 3))) := by
  refine ⟨update_closed hd, mooreCount n g x y, count_closed hd x y, ?_⟩
  rw [stepPure_getCell g hx hy]
  unfold nextCell
  by_cases hcell : getD2 g x y
  · rw [if_pos hcell]
    simp [hcell]
  · rw [if_neg hcell]
    simp [Bool.not_eq_true] at hcell
    simp [hcell]

/-- Witness for C1 at the corner cell of the smallest all-dead grid. -/
theorem evolution_rule_correct_witness :
    update_game_state 0 (clear_grid 0) = some (stepPure 0 (clear_grid 0)) ∧
    ∃ c, count_alive_neighbors 0 (clear_grid 0) 0 0 = some c ∧
      (getCell (stepPure 0 (clear_grid 0)) 0 0 = some true ↔
        ((getD2 (clear_grid 0) 0 0 = true ∧ (c = 2 ∨ c = 3)) ∨
         (getD2 (clear_grid 0) 0 0 = false ∧ c = 3))) :=
  evolution_rule_correct (by decide) (by decide) (by decide)

/--
Claim C2: the alive-neighbor count equals the sum of the bounded
contributions of exactly the 8 Moore offsets — a neighbor position
contributes only when it lies within `[0, n+2)` on both axes, with no
wraparound — and at the corner `(0,0)` the count is exactly the sum of
the three in-matrix neighbors `(0,1)`, `(1,0)`, `(1,1)`, hence at most 3.
-/
theorem neighbor_count_moore {n : ℕ} {g : Grid} (hd : dims n g) (x y : ℕ) :
    count_alive_neighbors n g x y = some (mooreCount n g x y) ∧
    (∀ c, count_alive_neighbors n g 0 0 = some c →
      c = (if getD2 g 0 1 then 1 else 0) + (if getD2 g 1 0 then 1 else 0) +
          (if getD2 g 1 1 then 1 else 0) ∧ c ≤ 3) := by
  refine ⟨count_closed hd x y, ?_⟩
  intro c hc
  rw [count_closed hd 0 0] at hc
  cases hc
  have hval : mooreCount n g 0 0 =
      (if getD2 g 0 1 then 1 else 0) + (if getD2 g 1 0 then 1 else 0) +
        (if getD2 g 1 1 then 1 else 0) := by
    unfold mooreCount contrib
    norm_num [Int.toNat_one, Int.toNat_zero]
    have hp0 : (0 : ℤ) < (n : ℤ) + 2 := by omega
    have hp1 : (1 : ℤ) < (n : ℤ) + 2 := by omega
    simp [hp0, hp1]
  refine ⟨hval, ?_⟩
  rw [hval]
  split_ifs <;> omega

/-- Witness for C2 on the smallest all-dead grid, corner count 0. -/
theorem neighbor_count_moore_witness :
    (0 : ℕ) = (if getD2 (clear_grid 0) 0 1 then 1 else 0) +
      (if getD2 (clear_grid 0) 1 0 then 1 else 0) +
      (if getD2 (clear_grid 0) 1 1 then 1 else 0) ∧ (0 : ℕ) ≤ 3 :=
  (neighbor_count_moore (n := 0) (g := clear_grid 0) (by decide) 0 0).2 0 (by decide)

/--
Claim C3: on a tick at time `now`, if the scheduler is playing and
`now - last_update ≥ update_frequency` the grid advances by exactly one
generation and `last_update` becomes `now`; if the interval has not
elapsed the whole state is unchanged; and while paused no sequence of
ticks ever changes the grid or the stored timestamp.
-/
theorem scheduler_gating (app : GameOfLifeApp) (now : ℚ)
    (hd : dims app.grid_length app.grid) :
    (app.is_playing = true → app.update_frequency ≤ now - app.last_update →
      tick app now = some { app with
        grid := stepPure app.grid_length app.grid, last_update := now }) ∧
    (now - app.last_update < app.update_frequency → tick app now = some app) ∧
    (app.is_playing = false → ∀ nows : List ℚ, ticks app nows = some app) := by
  refine ⟨?_, ?_, ?_⟩
  · intro hp hdue
    unfold tick
    rw [if_pos ⟨hp, hdue⟩, update_closed hd]
  · intro hlate
    unfold tick
    rw [if_neg (fun h => absurd h.2 (not_le.mpr hlate))]
  · intro hp nows
    induction nows with
    | nil => rfl
    | cons t ts ih =>
      show (t :: ts).foldlM tick app = some app
      rw [List.foldlM_cons]
      have hone : tick app t = some app := by
        unfold tick
        rw [if_neg (fun h => by rw [hp] at h; cases h.1)]
      rw [hone]
      simpa [ticks] using ih

/-- Witness for C3: a due tick on a playing 2-by-2 engine fires. -/
theorem scheduler_gating_witness :
    tick { grid_length := 0, grid := clear_grid 0, is_playing := true,
           last_update := 0, update_frequency := 1 / 2 } (1 / 2)
      = some { grid_length := 0, grid := stepPure 0 (clear_grid 0),
               is_playing := true, last_update := 1 / 2,
               update_frequency := 1 / 2 } :=
  (scheduler_gating _ _ (by decide)).1 rfl (by norm_num)

/--
Counterexample to C4 as stated: at pointer `(-5, 5)` with origin `(0,0)`,
cell size 20 and `n = 16`, the floored x-offset is `-1` — negative — yet
the click is not ignored: it toggles cell `(0, 0)`, so "a toggle fires iff
both indices are non-negative and below n" is false on the code.
-/
theorem input_mapping_negative_counterexample :
    Int.floor (((-5 : ℚ) - 0) / 20) = -1 ∧
    map_click 16 (-5) 5 0 0 20 = some (0, 0) ∧
    handle_click 16 (clear_grid 16) (-5) 5 0 0 20 ≠ some (clear_grid 16) := by
  have hfx : Int.floor (((-5 : ℚ) - 0) / 20) = -1 := by norm_num
  have hfy : Int.floor (((5 : ℚ) - 0) / 20) = 0 := by norm_num
  have hmc : map_click 16 (-5) 5 0 0 20 = some (0, 0) := by
    simp only [map_click, hfx, hfy]
    decide
  refine ⟨hfx, hmc, ?_⟩
  unfold handle_click
  rw [hmc]
  decide

/--
Claim C4, amended: the mapping computes the floors of the scaled pointer
offsets and converts them to unsigned indices with a saturating cast
(negative floors become 0, they are not rejected); the click is ignored
iff a saturated index reaches the playable size `n` (not `n+2`), and
otherwise the toggle fires at the saturated indices. Concretely, for
`n = 16` and cell size 20, every pixel in `[0,20) × [0,20)` maps to
index `(0,0)` and pixel `(320, 0)` maps to `none`.
-/
theorem input_mapping_amended (n : ℕ) (g : Grid) (px py ox oy cs : ℚ) :
    (map_click n px py ox oy cs = none ↔
      n ≤ (Int.floor ((px - ox) / cs)).toNat ∨
      n ≤ (Int.floor ((py - oy) / cs)).toNat) ∧
    (∀ ix iy, map_click n px py ox oy cs = some (ix, iy) →
      (ix : ℤ) = max (Int.floor ((px - ox) / cs)) 0 ∧
      (iy : ℤ) = max (Int.floor ((py - oy) / cs)) 0 ∧ ix < n ∧ iy < n ∧
      handle_click n g px py ox oy cs = toggle g ix iy) ∧
    (map_click n px py ox oy cs = none →
      handle_click n g px py ox oy cs = some g) ∧
    (∀ qx qy : ℚ, 0 ≤ qx → qx < 20 → 0 ≤ qy → qy < 20 →
      map_click 16 qx qy 0 0 20 = some (0, 0)) ∧
    map_click 16 320 0 0 0 20 = none := by
  refine ⟨?_, ?_, ?_, ?_, ?_⟩
  · simp only [map_click]
    split_ifs with hc
    · exact iff_of_false (by simp) (by omega)
    · exact iff_of_true rfl (by omega)
  · intro ix iy h
    obtain ⟨h1, h2, h3, h4⟩ := map_click_some h
    have h1b : ix = (Int.floor ((px - ox) / cs)).toNat := h1
    have h2b : iy = (Int.floor ((py - oy) / cs)).toNat := h2
    refine ⟨?_, ?_, h3, h4, ?_⟩
    · rw [h1b]; exact Int.toNat_eq_max _
    · rw [h2b]; exact Int.toNat_eq_max _
    · unfold handle_click
      rw [h]
  · intro h
    unfold handle_click
    rw [h]
  · intro qx qy h1 h2 h3 h4
    have hfx : Int.floor ((qx - 0) / 20) = 0 := by
      rw [Int.floor_eq_zero_iff]
      constructor
      · exact div_nonneg (by linarith) (by norm_num)
      · rw [div_lt_one (by norm_num)]
        linarith
    have hfy : Int.floor ((qy - 0) / 20) = 0 := by
      rw [Int.floor_eq_zero_iff]
      constructor
      · exact div_nonneg (by linarith) (by norm_num)
      · rw [div_lt_one (by norm_num)]
        linarith
    simp only [map_click, hfx, hfy]
    decide
  · have hfx : Int.floor (((320 : ℚ) - 0) / 20) = 16 := by norm_num
    have hfy : Int.floor (((0 : ℚ) - 0) / 20) = 0 := by norm_num
    simp only [map_click, hfx, hfy]
    decide

/-- Witness for the amended C4: pixel `(0, 0)` maps to index `(0, 0)`. -/
theorem input_mapping_amended_witness :
    map_click 16 0 0 0 0 20 = some (0, 0) :=
  (input_mapping_amended 16 [] 0 0 0 0 20).2.2.2.1 0 0 (by norm_num)
    (by norm_num) (by norm_num) (by norm_num)

/--
Claim C5: the Clear operation replaces the matrix by an all-dead matrix
of the same `(n+2) × (n+2)` dimensions, leaves the playable size and the
timer state untouched, forces the scheduler to Paused, and afterwards
every in-bounds read returns dead.
-/
theorem clear_correct (app : GameOfLifeApp) :
    (on_clear app).grid_length = app.grid_length ∧
    (on_clear app).is_playing = false ∧
    dims app.grid_length (on_clear app).grid ∧
    (∀ x y, x < app.grid_length + 2 → y < app.grid_length + 2 →
      getCell (on_clear app).grid x y = some false) ∧
    (on_clear app).last_update = app.last_update ∧
    (on_clear app).update_frequency = app.update_frequency := by
  refine ⟨rfl, rfl, clear_grid_dims _, ?_, rfl, rfl⟩
  intro x y hx hy
  exact clear_grid_getCell hx hy

/-- Witness for C5 on a 2-by-2 playing engine: clearing kills cell (1,1). -/
theorem clear_correct_witness :
    getCell (on_clear ⟨0, [[true, true], [true, true]], true, 3, 1⟩).grid 1 1
      = some false :=
  (clear_correct _).2.2.2.1 1 1 (by omega) (by omega)

/--
Claim C6: the `(N+2) × (N+2)` dimension invariant holds at construction
(with every cell dead) and is preserved by the click-toggle, by clear,
and by the evolution step.
-/
theorem dims_invariant_preserved :
    (∀ t0 : ℚ, (GameOfLifeApp.new t0).grid_length = 32 ∧
      dims 32 (GameOfLifeApp.new t0).grid ∧
      (∀ x y, x < 34 → y < 34 →
        getCell (GameOfLifeApp.new t0).grid x y = some false)) ∧
    (∀ n, dims n (clear_grid n)) ∧
    (∀ n (g : Grid) (px py ox oy cs : ℚ) g2, dims n g →
      handle_click n g px py ox oy cs = some g2 → dims n g2) ∧
    (∀ n (g g2 : Grid), dims n g →
      update_game_state n g = some g2 → dims n g2) := by
  refine ⟨?_, clear_grid_dims, ?_, ?_⟩
  · intro t0
    refine ⟨rfl, clear_grid_dims 32, ?_⟩
    intro x y hx hy
    exact clear_grid_getCell (by omega) (by omega)
  · intro n g px py ox oy cs g2 hd h
    unfold handle_click at h
    cases hmc : map_click n px py ox oy cs with
    | none =>
      rw [hmc] at h
      cases h
      exact hd
    | some p =>
      obtain ⟨a, b⟩ := p
      obtain ⟨h1, h2, h3, h4⟩ := map_click_some hmc
      have ha : a < n := h3
      have hb : b < n := h4
      simp only [hmc] at h
      have ht := toggle_closed hd (show a < n + 2 by omega) (show b < n + 2 by omega)
      rw [ht.1] at h
      cases h
      exact ht.2
  · intro n g g2 hd h
    rw [update_closed hd] at h
    cases h
    exact stepPure_dims n g

/-- Witness for C6: one evolution step of a blinker keeps the dimensions. -/
theorem dims_invariant_preserved_witness :
    dims 1 [[false, false, false], [true, true, true], [false, false, false]] :=
  dims_invariant_preserved.2.2.2 1
    [[false, true, false], [false, true, false], [false, true, false]]
    [[false, false, false], [true, true, true], [false, false, false]]
    (by decide) (by decide)

/--
Claim C7: toggling an in-bounds cell flips exactly that cell, leaves
every other cell unchanged, and toggling it again restores the original
grid.
-/
theorem toggle_involution {n : ℕ} {g : Grid} (hd : dims n g) {x y : ℕ}
    (hx : x < n + 2) (hy : y < n + 2) :
    ∃ g2, toggle g x y = some g2 ∧
      getCell g2 x y = some (!(getD2 g x y)) ∧
      (∀ x2 y2, ¬(x2 = x ∧ y2 = y) → getCell g2 x2 y2 = getCell g x2 y2) ∧
      toggle g2 x y = some g := by
  have ht := toggle_closed hd hx hy
  refine ⟨writeCell g x y (!(getD2 g x y)), ht.1,
    getCell_writeCell_same hd hx hy _,
    fun x2 y2 hne => getCell_writeCell_other _ x2 y2 hne, ?_⟩
  have hx2 : x < g.length := by rw [hd.1]; omega
  have hb : getD2 (writeCell g x y (!(getD2 g x y))) x y = !(getD2 g x y) := by
    have h1 := getCell_writeCell_same hd hx hy (!(getD2 g x y))
    have h2 := getCell_some ht.2 hx hy
    rw [h1] at h2
    exact (Option.some.injEq _ _ ▸ h2).symm
  have ht2 := toggle_closed ht.2 hx hy
  rw [ht2.1, hb, Bool.not_not, writeCell_writeCell hx2,
    writeCell_same_value hd hx hy]

/-- Witness for C7: toggling cell (1,1) of a 3-by-3 grid twice. -/
theorem toggle_involution_witness :
    ∃ g2, toggle [[false, false, false], [false, true, false],
        [false, false, false]] 1 1 = some g2 ∧
      getCell g2 1 1 = some (!(getD2 [[false, false, false],
        [false, true, false], [false, false, false]] 1 1)) ∧
      (∀ x2 y2, ¬(x2 = 1 ∧ y2 = 1) → getCell g2 x2 y2 =
        getCell [[false, false, false], [false, true, false],
          [false, false, false]] x2 y2) ∧
      toggle g2 1 1 = some [[false, false, false], [false, true, false],
        [false, false, false]] :=
  toggle_involution (n := 1) (by decide) (by decide) (by decide)

/--
Claim C8: the process-only engine of src/src/main.rs (hardcoded 18 by 18
matrix) computes exactly the same neighbor counts and the same evolution
step as the portable engine of src/src/lib.rs instantiated with playable
size 16.
-/
theorem engines_equivalent :
    (∀ (g : Grid) (x y : ℕ),
      main_count_alive_neighbors g x y = count_alive_neighbors 16 g x y) ∧
    ∀ g : Grid, main_update_game_state g = update_game_state 16 g :=
  ⟨fun _ _ _ => rfl, fun _ => rfl⟩

/--
Claim C9: a pointer strictly left of or above the grid origin yields a
negative floored offset on that axis, the float-to-usize conversion
saturates it to 0, and — when the other axis maps below `n` — the click
toggles a cell in matrix row 0 (respectively column 0) instead of being
rejected; such a click is rejected only when the other axis reaches `n`.
-/
theorem negative_offset_saturates (n : ℕ) (g : Grid) (px py ox oy cs : ℚ)
    (hcs : 0 < cs) (hn : 0 < n) :
    (px < ox →
      Int.floor ((px - ox) / cs) < 0 ∧
      (Int.floor ((px - ox) / cs)).toNat = 0 ∧
      (map_click n px py ox oy cs = none ↔
        n ≤ (Int.floor ((py - oy) / cs)).toNat) ∧
      (∀ iy, (Int.floor ((py - oy) / cs)).toNat = iy → iy < n →
        map_click n px py ox oy cs = some (0, iy) ∧
        handle_click n g px py ox oy cs = toggle g 0 iy)) ∧
    (py < oy →
      Int.floor ((py - oy) / cs) < 0 ∧
      (Int.floor ((py - oy) / cs)).toNat = 0 ∧
      (map_click n px py ox oy cs = none ↔
        n ≤ (Int.floor ((px - ox) / cs)).toNat) ∧
      (∀ ix, (Int.floor ((px - ox) / cs)).toNat = ix → ix < n →
        map_click n px py ox oy cs = some (ix, 0) ∧
        handle_click n g px py ox oy cs = toggle g ix 0)) := by
  constructor
  · intro hpx
    have hneg : (px - ox) / cs < 0 :=
      div_neg_of_neg_of_pos (by linarith) hcs
    have hfl : Int.floor ((px - ox) / cs) < 0 := by
      have := Int.floor_lt.mpr (show (px - ox) / cs < ((0 : ℤ) : ℚ) by
        rw [Int.cast_zero]; exact hneg)
      exact this
    refine ⟨hfl, by omega, ?_, ?_⟩
    · simp only [map_click]
      split_ifs with hc
      · exact iff_of_false (by simp) (by omega)
      · exact iff_of_true rfl (by omega)
    · intro iy hiy hlt
      have hmc : map_click n px py ox oy cs = some (0, iy) := by
        simp only [map_click]
        rw [if_pos ⟨by omega, by omega⟩]
        have e1 : (Int.floor ((px - ox) / cs)).toNat = 0 := by omega
        rw [e1, hiy]
      refine ⟨hmc, ?_⟩
      unfold handle_click
      rw [hmc]
  · intro hpy
    have hneg : (py - oy) / cs < 0 :=
      div_neg_of_neg_of_pos (by linarith) hcs
    have hfl : Int.floor ((py - oy) / cs) < 0 := by
      have := Int.floor_lt.mpr (show (py - oy) / cs < ((0 : ℤ) : ℚ) by
        rw [Int.cast_zero]; exact hneg)
      exact this
    refine ⟨hfl, by omega, ?_, ?_⟩
    · simp only [map_click]
      split_ifs with hc
      · exact iff_of_false (by simp) (by omega)
      · exact iff_of_true rfl (by omega)
    · intro ix hix hlt
      have hmc : map_click n px py ox oy cs = some (ix, 0) := by
        simp only [map_click]
        rw [if_pos ⟨by omega, by omega⟩]
        have e1 : (Int.floor ((py - oy) / cs)).toNat = 0 := by omega
        rw [hix, e1]
      refine ⟨hmc, ?_⟩
      unfold handle_click
      rw [hmc]

/-- Witness for C9: a click at pixel (-5, 25) lands on cell (0, 1), and
a click at pixel (25, -5) lands on cell (1, 0). -/
theorem negative_offset_saturates_witness :
    (map_click 16 (-5) 25 0 0 20 = some (0, 1) ∧
      handle_click 16 (clear_grid 16) (-5) 25 0 0 20 =
        toggle (clear_grid 16) 0 1) ∧
    (map_click 16 25 (-5) 0 0 20 = some (1, 0) ∧
      handle_click 16 (clear_grid 16) 25 (-5) 0 0 20 =
        toggle (clear_grid 16) 1 0) := by
  have h1 := negative_offset_saturates 16 (clear_grid 16) (-5) 25 0 0 20
    (by norm_num) (by norm_num)
  have h2 := negative_offset_saturates 16 (clear_grid 16) 25 (-5) 0 0 20
    (by norm_num) (by norm_num)
  exact ⟨(h1.1 (by norm_num)).2.2.2 1 (by norm_num) (by norm_num),
    (h2.2 (by norm_num)).2.2.2 1 (by norm_num) (by norm_num)⟩

/--
Claim C10: under the dimension invariant every matrix access of the
engine is in bounds — the neighbor count, the evolution step, the click
handler and the in-range toggle all return a value and never reach the
out-of-bounds (panic) branch.
-/
theorem no_out_of_bounds {n : ℕ} {g : Grid} (hd : dims n g) :
    (∀ x y, (count_alive_neighbors n g x y).isSome = true) ∧
    (update_game_state n g).isSome = true ∧
    (∀ px py ox oy cs : ℚ, (handle_click n g px py ox oy cs).isSome = true) ∧
    (∀ x y, x < n → y < n → (toggle g x y).isSome = true) := by
  refine ⟨fun x y => by rw [count_closed hd x y]; rfl,
    by rw [update_closed hd]; rfl, ?_, ?_⟩
  · intro px py ox oy cs
    unfold handle_click
    cases hmc : map_click n px py ox oy cs with
    | none => rfl
    | some p =>
      obtain ⟨a, b⟩ := p
      obtain ⟨h1, h2, h3, h4⟩ := map_click_some hmc
      have ha : a < n := h3
      have hb : b < n := h4
      have ht := toggle_closed hd (show a < n + 2 by omega)
        (show b < n + 2 by omega)
      show (toggle g a b).isSome = true
      rw [ht.1]
      rfl
  · intro x y hx hy
    have ht := toggle_closed hd (show x < n + 2 by omega)
      (show y < n + 2 by omega)
    rw [ht.1]
    rfl

/-- Witness for C10 on the 2-by-2 all-dead grid. -/
theorem no_out_of_bounds_witness :
    (count_alive_neighbors 0 (clear_grid 0) 1 1).isSome = true ∧
    (update_game_state 0 (clear_grid 0)).isSome = true :=
  ⟨(no_out_of_bounds (by decide)).1 1 1, (no_out_of_bounds (by decide)).2.1⟩

end Conway
